import Mathlib

/-
  Verification of the argo action-tree engine (action.go, state.go).

  The Go code is shallowly embedded as pure Lean functions:
  * Go's mutable `*State` becomes explicit state passing (`State` in / `State` out).
  * Go's `int` fields become `Int`; slice lengths are `Nat` cast to `Int` at comparisons.
  * Handlers (`Do func(*State, ...interface{}) error`) are deeply embedded as `DoF`:
    ordinary user handlers are arbitrary Lean functions on the state, while the
    help handler auto-injected by `finalizeActionTree` (a Go closure over the node
    being finalized) is a marker constructor; `Parse` resolves the captured node
    from the delegating parent, which is exactly the node the closure closed over.
  * `HelpGen func(Action) string` is deeply embedded as `HelpGenF` (the built-in
    default generator, or a constant-text generator) to keep `Action` strictly
    positive; the repository's own tests only install constant generators.
  * Go maps keyed by trigger are modelled by the ordered child list (triggers are
    unique among siblings for trees built through `AddSubAction`); Go's
    nondeterministic map iteration order in `finalizeActionTree` is determinized
    to list order, which only fixes which error wins when several children fail.
  * `finalizeActionTree` recurses into a child list that may have grown by the
    injected help child, so the Lean version carries a fuel argument; `Finalize`
    supplies `(number of nodes) + 1`, which is always sufficient, and running out
    of fuel is a distinguished error that never occurs on `.ok` runs.
-/

namespace Argo

/-- Go `State` (state.go): output sink plus the args consumed by the currently
triggered action. -/
structure State where
  OutputStr : String
  doArgs : List String
deriving Repr

/-- Deep embedding of the `HelpGen func(Action) string` field: either the built-in
`defaultHelpGenerator`, or a user generator returning fixed text. -/
inductive HelpGenF where
  | defaultGen : HelpGenF
  | constGen (s : String) : HelpGenF
deriving Repr

/-- Deep embedding of the `Do func(*State, ...interface{}) error` field.
`user f` is an arbitrary handler mutating the state and optionally returning a
custom error of type `U`; `helpDo` marks the handler closure injected by
`finalizeActionTree` (its captured node is recovered by `Parse` from the
delegating parent). `E` is the type of the opaque vararg context values. -/
inductive DoF (E U : Type) where
  | user (f : State → List E → State × Option U)
  | helpDo

/-- The exported and internal fields of Go's `Action` struct, minus the child
list (which is split off so that `Action` can be a recursive inductive).
`hasParent` models `parent != nil`; the parent pointer itself is only ever used
for the already-assigned check and for path computation, which is cached. -/
structure ActionData (E U : Type) where
  Trigger : String
  Do : Option (DoF E U)
  MinConsume : Int
  MaxConsume : Int
  ShortDescr : String
  LongDescr : String
  ArgNames : List String
  Hidden : Bool
  DisableHelp : Bool
  HelpTrigger : String
  HelpGen : Option HelpGenF
  hasParent : Bool
  pathCached : String
  helpTextCached : String
  finalized : Bool

/-- Go `Action`: field record plus the ordered child list (modelling
`subActionTrigger` together with the trigger-keyed lookup maps). -/
inductive Action (E U : Type) where
  | mk (data : ActionData E U) (children : List (Action E U))

/-- The field record of an action. -/
def Action.data {E U : Type} : Action E U → ActionData E U
  | .mk d _ => d

/-- The ordered list of sub-actions of an action. -/
def Action.children {E U : Type} : Action E U → List (Action E U)
  | .mk _ cs => cs

/-- Replace the child list, keeping all other fields. -/
def Action.withChildren {E U : Type} : Action E U → List (Action E U) → Action E U
  | .mk d _, cs => .mk d cs

abbrev Action.Trigger {E U : Type} (a : Action E U) : String := a.data.Trigger
abbrev Action.Do {E U : Type} (a : Action E U) : Option (DoF E U) := a.data.Do
abbrev Action.MinConsume {E U : Type} (a : Action E U) : Int := a.data.MinConsume
abbrev Action.MaxConsume {E U : Type} (a : Action E U) : Int := a.data.MaxConsume
abbrev Action.ShortDescr {E U : Type} (a : Action E U) : String := a.data.ShortDescr
abbrev Action.LongDescr {E U : Type} (a : Action E U) : String := a.data.LongDescr
abbrev Action.ArgNames {E U : Type} (a : Action E U) : List String := a.data.ArgNames
abbrev Action.Hidden {E U : Type} (a : Action E U) : Bool := a.data.Hidden
abbrev Action.DisableHelp {E U : Type} (a : Action E U) : Bool := a.data.DisableHelp
abbrev Action.HelpTrigger {E U : Type} (a : Action E U) : String := a.data.HelpTrigger
abbrev Action.HelpGen {E U : Type} (a : Action E U) : Option HelpGenF := a.data.HelpGen
abbrev Action.hasParent {E U : Type} (a : Action E U) : Bool := a.data.hasParent
abbrev Action.pathCached {E U : Type} (a : Action E U) : String := a.data.pathCached
abbrev Action.helpTextCached {E U : Type} (a : Action E U) : String := a.data.helpTextCached
abbrev Action.finalized {E U : Type} (a : Action E U) : Bool := a.data.finalized

/-- The Go zero value `ActionData{}`. -/
def emptyData {E U : Type} : ActionData E U :=
  { Trigger := "", Do := none, MinConsume := 0, MaxConsume := 0, ShortDescr := "",
    LongDescr := "", ArgNames := [], Hidden := false, DisableHelp := false,
    HelpTrigger := "", HelpGen := none, hasParent := false, pathCached := "",
    helpTextCached := "", finalized := false }

/-- The Go zero value `Action{}`. -/
def emptyAct {E U : Type} : Action E U := .mk emptyData []

/-- Go `Action.Path()`. -/
def Action.Path {E U : Type} (a : Action E U) : String :=
  if a.pathCached = "" then a.Trigger else a.pathCached

/-- Go `Action.SubActions()`: the ordered trigger list of the immediate children. -/
def Action.SubActionsT {E U : Type} (a : Action E U) : List String :=
  a.children.map (fun c => c.Trigger)

/-- Go `Action.GetSubAction(trigger)`: child with the given trigger, or the zero
`Action{}` when absent (both the pre-finalize map read of a missing key and the
post-finalize nil-pointer branch yield the zero value). -/
def Action.GetSubAction {E U : Type} (a : Action E U) (trigger : String) : Action E U :=
  (a.children.find? (fun c => c.Trigger == trigger)).getD emptyAct

/-- The typed error taxonomy of the package (every `...Error` struct of
action.go), plus `outOfFuel`, an artifact of the fueled embedding of the
finalize recursion that never occurs on runs started with enough fuel. -/
inductive ArgoErr (E U : Type) where
  | emptyTrigger (path : String)
  | alreadyAssigned (assignedPath : String)
  | duplicatedSubAction (trigger : String)
  | unreachable (path : String)
  | notFinalized (victim : Action E U)
  | doubleFinalize (victim : Action E U)
  | tooFewArgs (victim : Action E U) (args : List String)
  | nilState
  | doErr (u : U)
  | outOfFuel

/-- Go `Action.AddSubAction(subAct)`. Go passes `subAct` by value, so a
successful attach stores an updated copy in the parent and leaves the caller's
value untouched; the returned action is the updated parent. -/
def AddSubAction {E U : Type} (act subAct : Action E U) :
    Except (ArgoErr E U) (Action E U) :=
  if subAct.Trigger = "" then .error (.emptyTrigger "")
  else if subAct.hasParent then .error (.alreadyAssigned subAct.Path)
  else if act.MaxConsume < 0 then .error (.unreachable (act.Path ++ " " ++ subAct.Trigger))
  else if act.children.any (fun c => c.Trigger == subAct.Trigger) then
    .error (.duplicatedSubAction subAct.Trigger)
  else
    let child := Action.mk
      { subAct.data with hasParent := true,
                         pathCached := act.Path ++ " " ++ subAct.Trigger }
      subAct.children
    .ok (Action.mk act.data (act.children ++ [child]))

/-- Go's `requiredArgs := make([]string, argNum); copy(requiredArgs, act.ArgNames)`:
`ArgNames` padded with `""` (or truncated) to length `n`. -/
def copyPad (names : List String) (n : Nat) : List String :=
  (List.range n).map (fun i => names.getD i "")

/-- The inner `genUsage` closure of `defaultHelpGenerator`. -/
def genUsage {E U : Type} (act : Action E U) : String :=
  if act.MaxConsume ≠ 0 then
    let argNum : Int := if act.MaxConsume > 0 then act.MaxConsume else act.MinConsume
    let requiredArgs := copyPad act.ArgNames argNum.toNat
    let reqPart := String.join
      (((requiredArgs.take act.MinConsume.toNat).enum).map
        (fun p => if p.2 = "" then " <arg" ++ toString (p.1 + 1) ++ ">"
                  else " <" ++ p.2 ++ ">"))
    let optPart :=
      if act.MaxConsume < 0 then
        if (act.ArgNames.length : Int) > act.MinConsume then
          " [" ++ act.ArgNames.getD act.MinConsume.toNat "" ++ " ...]"
        else " [argN ...]"
      else
        if act.MaxConsume > act.MinConsume then
          let argText := String.join
            ((requiredArgs.drop act.MinConsume.toNat).enum.map
              (fun p => (if p.2 = "" then "arg" ++ toString (p.1 + act.MinConsume.toNat + 1)
                         else p.2) ++ " "))
          " [" ++ argText.trim ++ "]"
        else ""
    act.Path ++ reqPart ++ optPart
  else
    act.Path ++ " [sub-action]"

/-- Go `defaultHelpGenerator(act)`. -/
def defaultHelpGenerator {E U : Type} (act : Action E U) : String :=
  let usage := "[Usage]\n" ++ genUsage act
  let descr :=
    if act.LongDescr ≠ "" then "\n\n[Description]\n" ++ act.LongDescr
    else if act.ShortDescr ≠ "" then "\n\n[Description]\n" ++ act.ShortDescr
    else ""
  let subs := act.SubActionsT
  let subPart :=
    if subs.length ≠ 0 then
      "\n\n[Sub-actions]" ++ String.join (subs.map (fun tr =>
        let sa := act.GetSubAction tr
        "\n" ++ sa.Trigger ++ "\n- " ++ sa.ShortDescr))
    else ""
  usage ++ descr ++ subPart

/-- Interpretation of the deep `HelpGenF` embedding. -/
def runHelpGen {E U : Type} : HelpGenF → Action E U → String
  | .defaultGen, a => defaultHelpGenerator a
  | .constGen s, _ => s

/-- Go `Action.Help()`: returns the cached text, generating and caching it first
when the cache is empty and a generator is installed.  Go mutates the receiver
through a pointer; the model returns the updated action alongside the text. -/
def Help {E U : Type} (act : Action E U) : String × Action E U :=
  match act.HelpGen with
  | some g =>
    if act.helpTextCached = "" then
      let t := runHelpGen g act
      (t, Action.mk { act.data with helpTextCached := t } act.children)
    else (act.helpTextCached, act)
  | none => (act.helpTextCached, act)

/-- Body of the help-handler closure injected by `finalizeActionTree`
(action.go lines 312-326), with `ownAct` standing for the captured `act`
pointer.  `targetAct.Help()` and `act.Help()` contribute only their text here:
the Go cache write through the pointer is invisible within a single `Parse`
call (for `targetAct` it lands in a discarded copy even in Go). -/
def helpDoBody {E U : Type} (ownAct : Action E U) (st : State) : State :=
  match st.doArgs with
  | cmd :: _ =>
    let targetAct := ownAct.GetSubAction cmd
    if targetAct.Trigger = "" then
      { st with OutputStr := st.OutputStr ++ "Sub action not found: " ++ ownAct.Path ++ " " ++ cmd }
    else
      { st with OutputStr := st.OutputStr ++ (Help targetAct).1 }
  | [] => { st with OutputStr := st.OutputStr ++ (Help ownAct).1 }

/-- Run a handler: user handlers run their function (custom errors lifted into
`ArgoErr.doErr`, propagated verbatim); the injected help handler runs
`helpDoBody` on the node that owns it (the `owner` the closure captured, which
`Parse` supplies) and always returns nil. -/
def runDo {E U : Type} (owner : Option (Action E U)) (d : DoF E U) (st : State)
    (vargs : List E) : State × Option (ArgoErr E U) :=
  match d with
  | .user f => let r := f st vargs; (r.1, r.2.map .doErr)
  | .helpDo =>
    match owner with
    | some ownAct => (helpDoBody ownAct st, none)
    | none => (st, none)

/-- Go `if act.Do != nil { ... act.Do(state, vargs...) ... }`: run the handler if
present, else leave the state unchanged with nil error. -/
def runDoOpt {E U : Type} (owner : Option (Action E U)) (d? : Option (DoF E U))
    (st : State) (vargs : List E) : State × Option (ArgoErr E U) :=
  match d? with
  | none => (st, none)
  | some d => runDo owner d st vargs

/-- The `Action{...}` literal that `finalizeActionTree` hands to `AddSubAction`
when injecting the help sub-action (action.go lines 309-329). -/
def helpChildFor {E U : Type} (ht : String) : Action E U :=
  .mk { (emptyData : ActionData E U) with
          Trigger := ht, MaxConsume := 1, Do := some .helpDo,
          ShortDescr := "Display help for commands",
          DisableHelp := true } []

/-- The normalized `MinConsume` computed by `finalizeActionTree`:
raw `MinConsume < 0` is fixed to `0`. -/
def normMin {E U : Type} (act : Action E U) : Int :=
  if act.MinConsume < 0 then 0 else act.MinConsume

/-- The normalized `MaxConsume` computed by `finalizeActionTree`: a non-negative
`MaxConsume` below the normalized `MinConsume` is raised to it. -/
def normMax {E U : Type} (act : Action E U) : Int :=
  if 0 ≤ act.MaxConsume ∧ act.MaxConsume < normMin act then normMin act else act.MaxConsume

/-- The cached path recomputed by `finalizeActionTree` from the re-bound parent. -/
def resolvedPath {E U : Type} (parent : Option (Action E U)) (act : Action E U) : String :=
  match parent with
  | none => act.Trigger
  | some p => p.Path ++ " " ++ act.Trigger

/-- The help generator resolved by `finalizeActionTree`: the node's own if set,
else the parent's, else the built-in default at the root. -/
def resolvedHelpGen {E U : Type} (parent : Option (Action E U)) (act : Action E U) :
    Option HelpGenF :=
  match act.HelpGen with
  | some g => some g
  | none =>
    match parent with
    | none => some .defaultGen
    | some p => p.HelpGen

/-- The help trigger resolved by `finalizeActionTree`: the node's own if set,
else the parent's, else `"help"` at the root. -/
def resolvedHelpTrigger {E U : Type} (parent : Option (Action E U)) (act : Action E U) : String :=
  if act.HelpTrigger = "" then
    match parent with
    | none => "help"
    | some p => p.HelpTrigger
  else act.HelpTrigger

/-- The node after `finalizeActionTree`'s field updates (parent retarget,
consume normalization, path recomputation, help inheritance), before the
help-child injection. -/
def prepAct {E U : Type} (parent : Option (Action E U)) (act : Action E U) : Action E U :=
  .mk { act.data with MinConsume := normMin act, MaxConsume := normMax act,
                      hasParent := parent.isSome, pathCached := resolvedPath parent act,
                      HelpGen := resolvedHelpGen parent act,
                      HelpTrigger := resolvedHelpTrigger parent act } act.children

/-- The non-recursive head of `finalizeActionTree(parent, act)` (action.go lines
262-337): double-finalize and empty-trigger checks, parent retarget, consume
normalization, path recomputation, help-generator and help-trigger inheritance,
and the help-child injection whose `DuplicatedSubActionError` outcome is
swallowed. -/
def finalizePrep {E U : Type} (parent : Option (Action E U)) (act : Action E U) :
    Except (ArgoErr E U) (Action E U) :=
  if act.finalized then .error (.doubleFinalize act)
  else if act.Trigger = "" then .error (.emptyTrigger act.Path)
  else
    if ¬ (prepAct parent act).DisableHelp = true ∧ (prepAct parent act).MaxConsume = 0 then
      match AddSubAction (prepAct parent act) (helpChildFor (prepAct parent act).HelpTrigger) with
      | .ok a2 => .ok a2
      | .error (.duplicatedSubAction _) => .ok (prepAct parent act)
      | .error e => .error e
    else .ok (prepAct parent act)

/-- Map an `Except`-valued function over a list, propagating the first error
(the sequencing of `finalizeActionTree`'s child loop). -/
def exceptMapList {α β ε : Type} (f : α → Except ε β) : List α → Except ε (List β)
  | [] => .ok []
  | a :: l =>
    match f a with
    | .error e => .error e
    | .ok b =>
      match exceptMapList f l with
      | .error e => .error e
      | .ok bs => .ok (b :: bs)

/-- Go `finalizeActionTree(parent, act)`, with a fuel argument making the
recursion (whose child list may have grown by the injected help child)
structural.  After `finalizePrep`, the node is marked finalized and the
children are finalized with the updated node as their parent. -/
def finalizeActionTreeF {E U : Type} :
    Nat → Option (Action E U) → Action E U → Except (ArgoErr E U) (Action E U)
  | 0, _, _ => .error .outOfFuel
  | fuel + 1, parent, act =>
    match finalizePrep parent act with
    | .error e => .error e
    | .ok act2 =>
      let act3 : Action E U := .mk { act2.data with finalized := true } act2.children
      match exceptMapList (finalizeActionTreeF fuel (some act3)) act2.children with
      | .error e => .error e
      | .ok children' => .ok (.mk act3.data children')

mutual
/-- The list of all nodes of an action tree (the node itself and, recursively,
all nodes of its children). -/
def allNodesList {E U : Type} : Action E U → List (Action E U)
  | .mk d cs => .mk d cs :: allNodesListAux cs
/-- Auxiliary recursion of `allNodesList` over a child list. -/
def allNodesListAux {E U : Type} : List (Action E U) → List (Action E U)
  | [] => []
  | a :: l => allNodesList a ++ allNodesListAux l
end

/-- Go `Action.Finalize()`: `finalizeActionTree(nil, act)`.  The fuel
`(number of nodes) + 1` always suffices: each level spends one unit and the
injected help children are leaves needing a single unit below their owner. -/
def Finalize {E U : Type} (act : Action E U) : Except (ArgoErr E U) (Action E U) :=
  finalizeActionTreeF ((allNodesList act).length + 1) none act

/-- Go `Action.Parse(state, args, vargs...)` (action.go lines 390-441).
Go mutates `state` through a pointer and returns only an error; the model takes
the possibly-nil state (`Option State`) and returns the updated state alongside
the error.  `owner` models the method environment needed by the deeply embedded
injected help handler: it is the node that delegated to `act` (the node whose
finalize closure the handler captured), `none` for a top-level call.  The
recursion passes `args[act.MaxConsume+1:]`, a strictly shorter list. -/
def Parse {E U : Type} (owner : Option (Action E U)) (act : Action E U)
    (state : Option State) (args : List String) (vargs : List E) :
    Option State × Option (ArgoErr E U) :=
  if act.finalized = false then (state, some (.notFinalized act))
  else
    match args with
    | [] => (state, none)
    | arg0 :: rest =>
      match state with
      | none => (none, some .nilState)
      | some st =>
        if act.Trigger = arg0 then
          if (rest.length : Int) < act.MinConsume then
            (some st, some (.tooFewArgs act rest))
          else if act.MaxConsume < 0 ∨ (rest.length : Int) ≤ act.MaxConsume then
            let r := runDoOpt owner act.Do { st with doArgs := rest } vargs
            (some r.1, r.2)
          else
            let k := act.MaxConsume.toNat
            let r := runDoOpt owner act.Do { st with doArgs := rest.take k } vargs
            match r.2 with
            | some e => (some r.1, some e)
            | none =>
              match hdrop : rest.drop k with
              | [] => (some r.1, none)
              | next :: tl =>
                match act.children.find? (fun c => c.Trigger == next) with
                | some sub => Parse (some act) sub (some r.1) (next :: tl) vargs
                | none => (some r.1, none)
        else (some st, none)
termination_by args.length
decreasing_by
  simp only [List.length_cons]
  have h := congrArg List.length hdrop
  simp [List.length_drop] at h
  omega

/-- The recursion depth of `Parse`: defined by the same case analysis as
`Parse`, counting `1` for each recursive descent into a child and `0` at every
non-recursive exit. -/
def parseDepth {E U : Type} (owner : Option (Action E U)) (act : Action E U)
    (state : Option State) (args : List String) (vargs : List E) : Nat :=
  if act.finalized = false then 0
  else
    match args with
    | [] => 0
    | arg0 :: rest =>
      match state with
      | none => 0
      | some st =>
        if act.Trigger = arg0 then
          if (rest.length : Int) < act.MinConsume then 0
          else if act.MaxConsume < 0 ∨ (rest.length : Int) ≤ act.MaxConsume then 0
          else
            match (runDoOpt owner act.Do
                { st with doArgs := rest.take act.MaxConsume.toNat } vargs).2 with
            | some _ => 0
            | none =>
              match hdrop : rest.drop act.MaxConsume.toNat with
              | [] => 0
              | next :: tl =>
                match act.children.find? (fun c => c.Trigger == next) with
                | some sub =>
                  1 + parseDepth (some act) sub
                    (some (runDoOpt owner act.Do
                      { st with doArgs := rest.take act.MaxConsume.toNat } vargs).1)
                    (next :: tl) vargs
                | none => 0
        else 0
termination_by args.length
decreasing_by
  simp only [List.length_cons]
  have h := congrArg List.length hdrop
  simp [List.length_drop] at h
  omega

/-! ### Derived predicates used in the statements -/

/-- The consume-range invariant every finalized node must satisfy:
`0 ≤ MinConsume` and (`MaxConsume < 0` or `MinConsume ≤ MaxConsume`). -/
def consumeInvB {E U : Type} (a : Action E U) : Bool :=
  decide (0 ≤ a.MinConsume) && decide (a.MaxConsume < 0 ∨ a.MinConsume ≤ a.MaxConsume)

/-- Whether a `Help()` call on this action invokes the generator
(empty cache and a generator installed). -/
def helpGenInvoked {E U : Type} (a : Action E U) : Bool :=
  a.helpTextCached == "" && a.HelpGen.isSome

/-- `true` iff the `Except` value is `.ok`. -/
def exceptIsOk {ε α : Type} : Except ε α → Bool
  | .ok _ => true
  | .error _ => false

/-- Projection of the field record out of a constructed action. -/
@[simp] theorem Action.data_mk {E U : Type} (d : ActionData E U) (cs : List (Action E U)) :
    (Action.mk d cs).data = d := rfl

/-- Projection of the child list out of a constructed action. -/
@[simp] theorem Action.children_mk {E U : Type} (d : ActionData E U) (cs : List (Action E U)) :
    (Action.mk d cs).children = cs := rfl

/-! ### C10: Help caching -/

/-- C10: `Help()` is idempotent and caching.  When the generator is invoked
(empty cache, generator present) its output is stored in the cache; whenever
the returned text is non-empty, a second `Help()` on the updated node returns
the identical text without invoking the generator again; a node with no
generator and no cached text returns the empty string. -/
theorem help_caching_idempotent {E U : Type} (act : Action E U) :
    (helpGenInvoked act = true → (Help act).2.helpTextCached = (Help act).1) ∧
    ((Help act).1 ≠ "" →
      Help (Help act).2 = ((Help act).1, (Help act).2) ∧
      helpGenInvoked (Help act).2 = false) ∧
    (act.HelpGen = none → act.helpTextCached = "" → Help act = ("", act)) := by
  rcases act with ⟨d, cs⟩
  rcases hg : d.HelpGen with _ | g
  · refine ⟨?_, ?_, ?_⟩
    · intro h
      simp [helpGenInvoked, Action.HelpGen, hg] at h
    · intro h
      have hHelp : Help (Action.mk d cs) = ((Action.mk d cs).helpTextCached, Action.mk d cs) := by
        simp [Help, Action.HelpGen, hg]
      rw [hHelp]
      exact ⟨hHelp, by simp [helpGenInvoked, Action.HelpGen, hg]⟩
    · intro _ hc
      simp only [Action.helpTextCached, Action.data_mk] at hc
      simp [Help, Action.HelpGen, Action.helpTextCached, hg, hc]
  · by_cases hc : d.helpTextCached = ""
    · have hHelp : Help (Action.mk d cs) =
          (runHelpGen g (Action.mk d cs),
           Action.mk { d with helpTextCached := runHelpGen g (Action.mk d cs) } cs) := by
        simp [Help, Action.HelpGen, Action.helpTextCached, hg, hc]
      refine ⟨?_, ?_, ?_⟩
      · intro _
        rw [hHelp]
        simp [Action.helpTextCached]
      · intro h
        rw [hHelp] at h ⊢
        simp only at h
        have h2 : Help (Action.mk { d with helpTextCached := runHelpGen g (Action.mk d cs) } cs)
            = (runHelpGen g (Action.mk d cs),
               Action.mk { d with helpTextCached := runHelpGen g (Action.mk d cs) } cs) := by
          simp [Help, Action.HelpGen, Action.helpTextCached, hg, h]
        refine ⟨h2, ?_⟩
        simp [helpGenInvoked, Action.helpTextCached, h]
      · intro hnone
        simp only [Action.HelpGen, Action.data_mk, hg] at hnone
        exact absurd hnone (by simp)
    · have hHelp : Help (Action.mk d cs) = (d.helpTextCached, Action.mk d cs) := by
        simp [Help, Action.HelpGen, Action.helpTextCached, hg, hc]
      refine ⟨?_, ?_, ?_⟩
      · intro h
        simp [helpGenInvoked, Action.helpTextCached, hc] at h
      · intro _
        rw [hHelp]
        exact ⟨hHelp, by simp [helpGenInvoked, Action.helpTextCached, hc]⟩
      · intro hnone
        simp only [Action.HelpGen, Action.data_mk, hg] at hnone
        exact absurd hnone (by simp)

/-- Concrete node for the C10 witness: empty cache, constant generator. -/
def c10act : Action Unit Unit :=
  .mk { emptyData with Trigger := "x", HelpGen := some (.constGen "hi") } []

/-- Witness for C10 at a concrete node. -/
theorem help_caching_idempotent_witness :
    (helpGenInvoked c10act = true ∧ (Help c10act).2.helpTextCached = (Help c10act).1) ∧
    ((Help c10act).1 ≠ "" ∧ Help (Help c10act).2 = ((Help c10act).1, (Help c10act).2)) :=
  ⟨⟨by decide, (help_caching_idempotent c10act).1 (by decide)⟩,
   ⟨by decide, ((help_caching_idempotent c10act).2.1 (by decide)).1⟩⟩

/-! ### C7 (corrected): AddSubAction and re-attachment -/

/-- Parent and children for the C7 counterexample. -/
def c7p1 : Action Unit Unit := .mk { emptyData with Trigger := "sub1" } []
/-- Second parent for the C7 counterexample. -/
def c7p2 : Action Unit Unit := .mk { emptyData with Trigger := "sub2" } []
/-- Child attached twice in the C7 counterexample. -/
def c7c : Action Unit Unit := .mk { emptyData with Trigger := "common" } []

/-- Counterexample to C7 as stated: attaching the same (parentless) child value
to a second parent succeeds instead of failing with `ActionAlreadyAssigned`,
because Go passes the child by value and never marks the caller's copy
(mirrors `TestCommonChildren`). -/
theorem addSubAction_reattach_counterexample :
    exceptIsOk (AddSubAction c7p1 c7c) = true ∧
    exceptIsOk (AddSubAction c7p2 c7c) = true := by
  constructor <;> rfl

/-- C7 (amended): `AddSubAction(q, c)` fails with `ActionAlreadyAssigned`
(carrying `c`'s assigned path) exactly when the child value `c` passed in
already carries a parent reference — e.g. a node value extracted from an
existing tree; a successful attach stores a marked copy inside the parent and
leaves the caller's value parentless, so the same value can be attached again
elsewhere. -/
theorem addSubAction_alreadyAssigned_iff {E U : Type} (q c : Action E U)
    (htr : ¬ c.Trigger = "") :
    AddSubAction q c = .error (.alreadyAssigned c.Path) ↔ c.hasParent = true := by
  unfold AddSubAction
  rw [if_neg htr]
  by_cases hp : c.hasParent = true
  · simp [hp]
  · rw [if_neg (by simpa using hp)]
    constructor
    · intro h
      by_cases hm : q.MaxConsume < 0
      · rw [if_pos hm] at h
        simp at h
      · rw [if_neg hm] at h
        by_cases hd : q.children.any (fun x => x.Trigger == c.Trigger) = true
        · rw [if_pos hd] at h
          simp at h
        · rw [if_neg hd] at h
          simp at h
    · intro h
      exact absurd h (by simpa using hp)

/-- Concrete parent and already-assigned child for the C7 witness. -/
def c7q : Action Unit Unit := .mk { emptyData with Trigger := "new" } []
/-- A child value carrying a parent reference (as extracted from a tree). -/
def c7assigned : Action Unit Unit :=
  .mk { emptyData with Trigger := "sub", hasParent := true, pathCached := "arg sub" } []

/-- Witness for the amended C7 at a concrete assigned child. -/
theorem addSubAction_alreadyAssigned_iff_witness :
    (¬ c7assigned.Trigger = "") ∧
    (AddSubAction c7q c7assigned = .error (.alreadyAssigned c7assigned.Path) ↔
      c7assigned.hasParent = true) :=
  ⟨by decide, addSubAction_alreadyAssigned_iff c7q c7assigned (by decide)⟩

/-! ### C8 (corrected): Parse with a nil state -/

/-- C8 (amended): for every finalized node and every *non-empty* token list,
`Parse` with an absent (nil) state yields the `NilState` error.  (On an empty
token list the length check returns success before the nil-state check runs.) -/
theorem parse_nil_state_nonempty {E U : Type} (owner : Option (Action E U))
    (act : Action E U) (a0 : String) (args : List String) (vargs : List E)
    (hfin : act.finalized = true) :
    Parse owner act none (a0 :: args) vargs = (none, some .nilState) := by
  rw [Parse.eq_def]
  simp [hfin]

/-- Finalized node for the C8 counterexample and witness. -/
def c8act : Action Unit Unit := .mk { emptyData with Trigger := "t", finalized := true } []

/-- Counterexample to C8 as stated: on an *empty* token list, `Parse` with a
nil state returns success (no error at all), because `len(args) == 0` is
checked before `state == nil` (action.go lines 395-401). -/
theorem parse_nil_state_counterexample :
    c8act.finalized = true ∧ Parse none c8act none ([] : List String) [] = (none, none) := by
  constructor
  · rfl
  · rw [Parse.eq_def]
    simp [c8act, Action.finalized]

/-- Witness for the amended C8 at a concrete node and token list. -/
theorem parse_nil_state_nonempty_witness :
    c8act.finalized = true ∧
    Parse none c8act none ["t", "x"] [] = (none, some .nilState) :=
  ⟨rfl, parse_nil_state_nonempty none c8act "t" ["x"] [] rfl⟩

/-! ### C2: full-consume (leaf) branch of Parse -/

/-- C2: for a finalized node whose trigger matches the first token, when the
rest is at least `MinConsume` long and `MaxConsume` is negative (unbounded) or
the rest fits within it, `Parse` stores the entire rest as the consumed args,
invokes the handler if present (returning its error verbatim), and never
recurses into any child — the result is the same for any replacement of the
child list. -/
theorem parse_full_consume_leaf {E U : Type} (owner : Option (Action E U))
    (act : Action E U) (st : State) (rest : List String) (vargs : List E)
    (hfin : act.finalized = true)
    (hmin : act.MinConsume ≤ (rest.length : Int))
    (hmax : act.MaxConsume < 0 ∨ (rest.length : Int) ≤ act.MaxConsume) :
    Parse owner act (some st) (act.Trigger :: rest) vargs
      = (some (runDoOpt owner act.Do { st with doArgs := rest } vargs).1,
         (runDoOpt owner act.Do { st with doArgs := rest } vargs).2) ∧
    ∀ cs : List (Action E U),
      Parse owner (act.withChildren cs) (some st) (act.Trigger :: rest) vargs
        = (some (runDoOpt owner act.Do { st with doArgs := rest } vargs).1,
           (runDoOpt owner act.Do { st with doArgs := rest } vargs).2) := by
  constructor
  · rw [Parse.eq_def]
    simp only [hfin]
    rw [if_neg (by simp)]
    rw [if_pos trivial, if_neg (by omega), if_pos hmax]
  · intro cs
    rcases act with ⟨d, cs0⟩
    rw [Parse.eq_def]
    simp only [Action.withChildren, Action.finalized, Action.Trigger, Action.MinConsume,
      Action.MaxConsume, Action.Do, Action.data_mk] at hfin hmin hmax ⊢
    simp only [hfin]
    rw [if_neg (by simp)]
    rw [if_pos trivial, if_neg (by omega), if_pos hmax]

/-- Concrete node for the C2 witness: unbounded consume and a handler returning
a custom error, which `Parse` must return verbatim. -/
def c2act : Action Unit Nat :=
  .mk { (emptyData : ActionData Unit Nat) with
          Trigger := "t", MaxConsume := -1, finalized := true,
          Do := some (.user (fun st _ => (st, some 42))) } []

/-- Witness for C2 at a concrete node: the whole rest is consumed and the
handler's error `42` comes back verbatim, with or without children. -/
theorem parse_full_consume_leaf_witness :
    (c2act.finalized = true ∧ c2act.MinConsume ≤ ((["a", "b"] : List String).length : Int) ∧
      (c2act.MaxConsume < 0 ∨ ((["a", "b"] : List String).length : Int) ≤ c2act.MaxConsume)) ∧
    Parse none c2act (some ⟨"", []⟩) (c2act.Trigger :: ["a", "b"]) []
      = (some ⟨"", ["a", "b"]⟩, some (.doErr 42)) ∧
    Parse none (c2act.withChildren []) (some ⟨"", []⟩) (c2act.Trigger :: ["a", "b"]) []
      = (some ⟨"", ["a", "b"]⟩, some (.doErr 42)) := by
  refine ⟨⟨rfl, by decide, Or.inl (by decide)⟩, ?_, ?_⟩
  · exact (parse_full_consume_leaf none c2act ⟨"", []⟩ ["a", "b"] [] rfl (by decide)
      (Or.inl (by decide))).1
  · exact (parse_full_consume_leaf none c2act ⟨"", []⟩ ["a", "b"] [] rfl (by decide)
      (Or.inl (by decide))).2 []

/-! ### C1: partial-consume and dispatch branch of Parse -/

/-- C1: for a finalized node whose trigger matches the first token, when the
rest is at least `MinConsume` long but strictly longer than a non-negative
`MaxConsume`, `Parse` stores exactly the first `MaxConsume` tokens of the rest
as the consumed args and invokes the handler if present; if the handler errors,
that error is returned and traversal stops; otherwise the next unconsumed token
is looked up in the child table: a matching child receives a recursive `Parse`
call with the matched token plus all following tokens, the same state and the
extra context values unchanged, and its result is returned; with no matching
child the call returns success. -/
theorem parse_partial_consume_dispatch {E U : Type} (owner : Option (Action E U))
    (act : Action E U) (st : State) (rest : List String) (vargs : List E)
    (hfin : act.finalized = true)
    (hmax0 : 0 ≤ act.MaxConsume)
    (hmin : act.MinConsume ≤ (rest.length : Int))
    (hmax : act.MaxConsume < (rest.length : Int)) :
    (∀ st2 e, runDoOpt owner act.Do { st with doArgs := rest.take act.MaxConsume.toNat } vargs
        = (st2, some e) →
      Parse owner act (some st) (act.Trigger :: rest) vargs = (some st2, some e)) ∧
    (∀ st2, runDoOpt owner act.Do { st with doArgs := rest.take act.MaxConsume.toNat } vargs
        = (st2, none) →
      ∀ next tl, rest.drop act.MaxConsume.toNat = next :: tl →
        (∀ sub, act.children.find? (fun c => c.Trigger == next) = some sub →
          Parse owner act (some st) (act.Trigger :: rest) vargs
            = Parse (some act) sub (some st2) (next :: tl) vargs) ∧
        (act.children.find? (fun c => c.Trigger == next) = none →
          Parse owner act (some st) (act.Trigger :: rest) vargs = (some st2, none))) := by
  constructor
  · intro st2 e hdo
    rw [Parse.eq_def]
    simp only [hfin]
    rw [if_neg (by simp)]
    rw [if_pos trivial, if_neg (by omega), if_neg (by omega), hdo]
  · intro st2 hdo next tl hdrop
    constructor
    · intro sub hfind
      rw [Parse.eq_def]
      simp only [hfin]
      rw [if_neg (by simp)]
      rw [if_pos trivial, if_neg (by omega), if_neg (by omega), hdo]
      simp only []
      rw [hdrop]
      simp only [hfind]
    · intro hfind
      rw [Parse.eq_def]
      simp only [hfin]
      rw [if_neg (by simp)]
      rw [if_pos trivial, if_neg (by omega), if_neg (by omega), hdo]
      simp only []
      rw [hdrop]
      simp only [hfind]

/-- Child node for the C1 witness. -/
def c1sub : Action Unit Unit := .mk { emptyData with Trigger := "b", finalized := true } []
/-- Parent node for the C1 witness: consumes exactly one token, then dispatches. -/
def c1act : Action Unit Unit :=
  .mk { emptyData with Trigger := "t", MaxConsume := 1, finalized := true } [c1sub]

/-- Witness for C1 at a concrete tree: one token is consumed, the next token
matches the child, and `Parse` returns the child's recursive result. -/
theorem parse_partial_consume_dispatch_witness :
    (c1act.finalized = true ∧ 0 ≤ c1act.MaxConsume ∧
      c1act.MinConsume ≤ ((["a", "b"] : List String).length : Int) ∧
      c1act.MaxConsume < ((["a", "b"] : List String).length : Int)) ∧
    Parse none c1act (some ⟨"", []⟩) (c1act.Trigger :: ["a", "b"]) []
      = Parse (some c1act) c1sub (some ⟨"", ["a"]⟩) ["b"] [] :=
  ⟨⟨rfl, by decide, by decide, by decide⟩,
    ((parse_partial_consume_dispatch none c1act ⟨"", []⟩ ["a", "b"] [] rfl (by decide)
        (by decide) (by decide)).2 ⟨"", ["a"]⟩ rfl "b" [] rfl).1 c1sub rfl⟩

/-! ### C9: Parse termination and depth bound -/

/-- Strong-induction core of the C9 bound: the recursion depth is at most the
length of the token list, because each recursive step passes
`args[MaxConsume+1:]`, a strictly shorter list. -/
theorem parseDepth_le_aux {E U : Type} :
    ∀ (n : Nat) (owner : Option (Action E U)) (act : Action E U) (state : Option State)
      (args : List String) (vargs : List E),
      args.length ≤ n → parseDepth owner act state args vargs ≤ args.length := by
  intro n
  induction n with
  | zero =>
    intro owner act state args vargs hlen
    have hnil : args = [] := List.eq_nil_of_length_eq_zero (Nat.le_zero.mp hlen)
    subst hnil
    rw [parseDepth.eq_def]
    split
    · exact Nat.le_refl 0
    · exact Nat.le_refl 0
  | succ m ih =>
    intro owner act state args vargs hlen
    rw [parseDepth.eq_def]
    split
    · simp
    · split
      · simp
      · rename_i arg0 rest
        split
        · simp
        · rename_i st
          split
          · split
            · simp
            · split
              · simp
              · split
                · simp
                · split
                  · simp
                  · rename_i next tl heq
                    split
                    · rename_i sub hfind
                      have h1 := congrArg List.length heq
                      simp only [List.length_drop, List.length_cons] at h1
                      simp only [List.length_cons] at hlen ⊢
                      have h2 : tl.length + 1 ≤ m := by omega
                      have h3 := ih (some act) sub
                        (some (runDoOpt owner act.Do
                          { st with doArgs := rest.take act.MaxConsume.toNat } vargs).1)
                        (next :: tl) vargs (by simpa using h2)
                      simp only [List.length_cons] at h3
                      omega
                    · simp
          · simp

/-- C9: `Parse` terminates (it is a total function of this development, its
recursion being well-founded on the token-list length), and its recursion
depth — `parseDepth`, which performs exactly `Parse`'s case analysis and counts
the recursive descents — is bounded by the number of tokens supplied: every
recursive step passes the strictly shorter list `args[MaxConsume+1:]`. -/
theorem parseDepth_le_tokens {E U : Type} (owner : Option (Action E U)) (act : Action E U)
    (state : Option State) (args : List String) (vargs : List E) :
    parseDepth owner act state args vargs ≤ args.length :=
  parseDepth_le_aux args.length owner act state args vargs (Nat.le_refl _)

/-! ### Lemmas about finalizePrep and the finalize recursion -/

/-- The stored copy of the injected help child: the help-child literal marked
with a parent and the cached path, as `AddSubAction` stores it. -/
def injHelpChild {E U : Type} (parent : Option (Action E U)) (act : Action E U) : Action E U :=
  .mk { (helpChildFor (resolvedHelpTrigger parent act) : Action E U).data with
          hasParent := true,
          pathCached := (prepAct parent act).Path ++ " " ++ resolvedHelpTrigger parent act } []

/-- `prepAct` keeps the child list. -/
theorem prepAct_children {E U : Type} (p : Option (Action E U)) (act : Action E U) :
    (prepAct p act).children = act.children := rfl

/-- Case analysis of a successful `finalizePrep`: the checks passed, and the
result is the field-updated node with the help child appended (injection
condition holds, no trigger collision), or unchanged (collision swallowed, or
injection condition fails). -/
theorem finalizePrep_ok_cases {E U : Type} {p : Option (Action E U)} {act a2 : Action E U}
    (h : finalizePrep p act = .ok a2) :
    act.finalized = false ∧ ¬ act.Trigger = "" ∧
    ((act.DisableHelp = false ∧ normMax act = 0 ∧
        act.children.any (fun c => c.Trigger == resolvedHelpTrigger p act) = false ∧
        ¬ resolvedHelpTrigger p act = "" ∧
        a2 = Action.mk (prepAct p act).data (act.children ++ [injHelpChild p act])) ∨
     (act.DisableHelp = false ∧ normMax act = 0 ∧
        act.children.any (fun c => c.Trigger == resolvedHelpTrigger p act) = true ∧
        a2 = prepAct p act) ∨
     (¬ (act.DisableHelp = false ∧ normMax act = 0) ∧ a2 = prepAct p act)) := by
  unfold finalizePrep at h
  by_cases hfin : act.finalized
  · rw [if_pos hfin] at h; simp at h
  · rw [if_neg hfin] at h
    refine ⟨by simpa using hfin, ?_⟩
    by_cases htr : act.Trigger = ""
    · rw [if_pos htr] at h; simp at h
    · rw [if_neg htr] at h
      refine ⟨htr, ?_⟩
      by_cases hcond : ¬ (prepAct p act).DisableHelp = true ∧ (prepAct p act).MaxConsume = 0
      · rw [if_pos hcond] at h
        have hdh : act.DisableHelp = false := by
          have := hcond.1
          simp only [prepAct, Action.DisableHelp, Action.data_mk] at this
          simpa using this
        have hmx : normMax act = 0 := by
          have := hcond.2
          simpa only [prepAct, Action.MaxConsume, Action.data_mk] using this
        unfold AddSubAction at h
        by_cases hht : (helpChildFor (prepAct p act).HelpTrigger : Action E U).Trigger = ""
        · rw [if_pos hht] at h; simp at h
        · rw [if_neg hht] at h
          rw [if_neg (by simp [helpChildFor, Action.hasParent, emptyData])] at h
          rw [if_neg (by simp only [prepAct, Action.MaxConsume, Action.data_mk]; omega)] at h
          by_cases hdup : (prepAct p act).children.any
              (fun c => c.Trigger ==
                (helpChildFor (prepAct p act).HelpTrigger : Action E U).Trigger) = true
          · rw [if_pos hdup] at h
            simp only at h
            refine Or.inr (Or.inl ⟨hdh, hmx, ?_, ?_⟩)
            · have := hdup
              simp only [prepAct_children] at this
              simpa only [helpChildFor, Action.Trigger, Action.HelpTrigger, Action.data_mk,
                prepAct] using this
            · simpa using h.symm
          · rw [if_neg hdup] at h
            simp only at h
            refine Or.inl ⟨hdh, hmx, ?_, ?_, ?_⟩
            · have := hdup
              simp only [prepAct_children] at this
              simp only [helpChildFor, Action.Trigger, Action.HelpTrigger, Action.data_mk,
                prepAct] at this
              simpa using this
            · simpa only [helpChildFor, Action.Trigger, Action.data_mk] using hht
            · have := h
              simp only [Except.ok.injEq] at this
              rw [← this]
              rfl
      · rw [if_neg hcond] at h
        refine Or.inr (Or.inr ⟨?_, by simpa using h.symm⟩)
        intro ⟨h1, h2⟩
        exact hcond ⟨by simp [prepAct, Action.DisableHelp, h1], by
          simpa only [prepAct, Action.MaxConsume, Action.data_mk] using h2⟩

/-- An errorless `exceptMapList` run yields only outputs of successful `f`. -/
theorem exceptMapList_ok_forall {α β ε : Type} {f : α → Except ε β} {P : β → Prop} :
    ∀ {l : List α} {r : List β}, exceptMapList f l = .ok r →
      (∀ a b, f a = .ok b → P b) → ∀ b ∈ r, P b := by
  intro l
  induction l with
  | nil =>
    intro r h hP b hb
    simp [exceptMapList] at h
    subst h
    simp at hb
  | cons a l ih =>
    intro r h hP b hb
    unfold exceptMapList at h
    rcases hfa : f a with e | b0
    · rw [hfa] at h; simp at h
    · rw [hfa] at h
      rcases hrest : exceptMapList f l with e | r0
      · rw [hrest] at h; simp at h
      · rw [hrest] at h
        simp only [Except.ok.injEq] at h
        subst h
        rcases List.mem_cons.mp hb with hb | hb
        · exact hb ▸ hP a b0 hfa
        · exact ih hrest hP b hb

/-- A projection invariant of `f` lifts through `exceptMapList` to the maps. -/
theorem exceptMapList_map_eq {α β ε γ : Type} {f : α → Except ε β} (g1 : β → γ) (g2 : α → γ) :
    ∀ {l : List α} {r : List β}, exceptMapList f l = .ok r →
      (∀ a b, f a = .ok b → g1 b = g2 a) → r.map g1 = l.map g2 := by
  intro l
  induction l with
  | nil =>
    intro r h _
    simp [exceptMapList] at h
    subst h
    simp
  | cons a l ih =>
    intro r h hg
    unfold exceptMapList at h
    rcases hfa : f a with e | b0
    · rw [hfa] at h; simp at h
    · rw [hfa] at h
      rcases hrest : exceptMapList f l with e | r0
      · rw [hrest] at h; simp at h
      · rw [hrest] at h
        simp only [Except.ok.injEq] at h
        subst h
        simp only [List.map_cons]
        rw [hg a b0 hfa, ih hrest hg]

/-- Splitting an errorless `exceptMapList` run over `l ++ [a]`. -/
theorem exceptMapList_append_one {α β ε : Type} {f : α → Except ε β} :
    ∀ {l : List α} {a : α} {r : List β}, exceptMapList f (l ++ [a]) = .ok r →
      ∃ r1 b, r = r1 ++ [b] ∧ exceptMapList f l = .ok r1 ∧ f a = .ok b := by
  intro l
  induction l with
  | nil =>
    intro a r h
    simp only [List.nil_append] at h
    unfold exceptMapList at h
    rcases hfa : f a with e | b0
    · rw [hfa] at h; simp at h
    · rw [hfa] at h
      simp only [exceptMapList, Except.ok.injEq] at h
      refine ⟨[], b0, ?_, ?_, ?_⟩
      · rw [← h]
        rfl
      · rfl
      · first
        | exact hfa
        | rfl
  | cons x l ih =>
    intro a r h
    simp only [List.cons_append] at h
    unfold exceptMapList at h
    rcases hfx : f x with e | b0
    · rw [hfx] at h; simp at h
    · rw [hfx] at h
      rcases hrest : exceptMapList f (l ++ [a]) with e | r0
      · rw [hrest] at h; simp at h
      · rw [hrest] at h
        simp only [Except.ok.injEq] at h
        subst h
        obtain ⟨r1, b, hr, hl, hfa⟩ := ih hrest
        exact ⟨b0 :: r1, b, by rw [hr]; rfl, by simp [exceptMapList, hfx, hl], hfa⟩

/-- A failing `exceptMapList` run exposes a failing element. -/
theorem exceptMapList_error_mem {α β ε : Type} {f : α → Except ε β} :
    ∀ {l : List α} {e : ε}, exceptMapList f l = .error e → ∃ a ∈ l, f a = .error e := by
  intro l
  induction l with
  | nil =>
    intro e h
    simp [exceptMapList] at h
  | cons a l ih =>
    intro e h
    unfold exceptMapList at h
    rcases hfa : f a with e0 | b0
    · rw [hfa] at h
      simp only [Except.error.injEq] at h
      subst h
      exact ⟨a, List.mem_cons_self a l, hfa⟩
    · rw [hfa] at h
      rcases hrest : exceptMapList f l with e0 | r0
      · rw [hrest] at h
        simp only [Except.error.injEq] at h
        subst h
        obtain ⟨x, hx, hfx⟩ := ih hrest
        exact ⟨x, List.mem_cons_of_mem a hx, hfx⟩
      · rw [hrest] at h; simp at h

/-- Decomposition of one successful step of the finalize recursion. -/
theorem finTree_ok_destruct {E U : Type} {n : Nat} {p : Option (Action E U)}
    {act act' : Action E U}
    (h : finalizeActionTreeF (n + 1) p act = .ok act') :
    ∃ a2 children', finalizePrep p act = .ok a2 ∧
      exceptMapList
        (finalizeActionTreeF n (some (Action.mk { a2.data with finalized := true } a2.children)))
        a2.children = .ok children' ∧
      act' = Action.mk { a2.data with finalized := true } children' := by
  unfold finalizeActionTreeF at h
  rcases hprep : finalizePrep p act with e | a2
  · rw [hprep] at h; simp at h
  · rw [hprep] at h
    simp only at h
    rcases hlist : exceptMapList
        (finalizeActionTreeF n (some (Action.mk { a2.data with finalized := true } a2.children)))
        a2.children with e | children'
    · rw [hlist] at h; simp at h
    · rw [hlist] at h
      simp only [Except.ok.injEq] at h
      refine ⟨a2, children', ?_, ?_, h.symm⟩
      · first
        | exact hprep
        | rfl
      · first
        | exact hlist
        | rfl

/-- A successful `finalizePrep` updates the field record exactly to `prepAct`'s. -/
theorem finalizePrep_ok_data {E U : Type} {p : Option (Action E U)} {act a2 : Action E U}
    (h : finalizePrep p act = .ok a2) : a2.data = (prepAct p act).data := by
  rcases finalizePrep_ok_cases h with ⟨_, _, hc | hc | hc⟩
  · rw [hc.2.2.2.2]
    rfl
  · rw [hc.2.2.2]
  · rw [hc.2]

/-- Field facts of a successfully finalized node: trigger kept, consume range
normalized, help-disable flag kept, finalized flag set. -/
theorem finTree_ok_data {E U : Type} {n : Nat} {p : Option (Action E U)} {act act' : Action E U}
    (h : finalizeActionTreeF n p act = .ok act') :
    act'.Trigger = act.Trigger ∧ act'.MinConsume = normMin act ∧
    act'.MaxConsume = normMax act ∧ act'.DisableHelp = act.DisableHelp ∧
    act'.finalized = true := by
  rcases n with _ | n
  · simp [finalizeActionTreeF] at h
  · obtain ⟨a2, children', hprep, _, hact⟩ := finTree_ok_destruct h
    have hdata := finalizePrep_ok_data hprep
    subst hact
    refine ⟨?_, ?_, ?_, ?_, ?_⟩ <;>
      simp [Action.Trigger, Action.MinConsume, Action.MaxConsume, Action.DisableHelp,
        Action.finalized, hdata, prepAct]

/-- Finalizing never changes a node's trigger. -/
theorem finTree_ok_trigger {E U : Type} {n : Nat} {p : Option (Action E U)}
    {c c' : Action E U} (h : finalizeActionTreeF n p c = .ok c') :
    c'.Trigger = c.Trigger :=
  (finTree_ok_data h).1

/-- `finalizePrep` never reports a `DuplicatedSubActionError`: the injection's
collision is swallowed and no other check raises one. -/
theorem finalizePrep_ne_dup {E U : Type} (p : Option (Action E U)) (act : Action E U)
    (t : String) : finalizePrep p act ≠ .error (.duplicatedSubAction t) := by
  intro h
  unfold finalizePrep at h
  by_cases hfin : act.finalized
  · rw [if_pos hfin] at h; simp at h
  · rw [if_neg hfin] at h
    by_cases htr : act.Trigger = ""
    · rw [if_pos htr] at h; simp at h
    · rw [if_neg htr] at h
      by_cases hcond : ¬ (prepAct p act).DisableHelp = true ∧ (prepAct p act).MaxConsume = 0
      · rw [if_pos hcond] at h
        have hmx : normMax act = 0 := by
          have := hcond.2
          simpa only [prepAct, Action.MaxConsume, Action.data_mk] using this
        unfold AddSubAction at h
        by_cases h1 : (helpChildFor (prepAct p act).HelpTrigger : Action E U).Trigger = ""
        · rw [if_pos h1] at h; simp at h
        · rw [if_neg h1] at h
          rw [if_neg (by simp [helpChildFor, Action.hasParent, emptyData])] at h
          rw [if_neg (by simp only [prepAct, Action.MaxConsume, Action.data_mk]; omega)] at h
          by_cases h2 : (prepAct p act).children.any
              (fun c => c.Trigger ==
                (helpChildFor (prepAct p act).HelpTrigger : Action E U).Trigger) = true
          · rw [if_pos h2] at h; simp at h
          · rw [if_neg h2] at h; simp at h
      · rw [if_neg hcond] at h; simp at h

/-- The finalize recursion never reports a `DuplicatedSubActionError` at any
fuel, for any node. -/
theorem finTree_ne_dup {E U : Type} :
    ∀ (n : Nat) (p : Option (Action E U)) (act : Action E U) (t : String),
      finalizeActionTreeF n p act ≠ .error (.duplicatedSubAction t) := by
  intro n
  induction n with
  | zero =>
    intro p act t h
    simp [finalizeActionTreeF] at h
  | succ m ih =>
    intro p act t h
    unfold finalizeActionTreeF at h
    rcases hprep : finalizePrep p act with e | a2
    · rw [hprep] at h
      simp only [Except.error.injEq] at h
      exact finalizePrep_ne_dup p act t (hprep.trans (congrArg Except.error h))
    · rw [hprep] at h
      simp only at h
      rcases hlist : exceptMapList
          (finalizeActionTreeF m (some (Action.mk { a2.data with finalized := true } a2.children)))
          a2.children with e | children'
      · rw [hlist] at h
        simp only [Except.error.injEq] at h
        subst h
        obtain ⟨a, _, hfa⟩ := exceptMapList_error_mem hlist
        exact ih _ a t hfa
      · rw [hlist] at h; simp at h

/-- Normalized `MinConsume` is never negative. -/
theorem normMin_nonneg {E U : Type} (act : Action E U) : 0 ≤ normMin act := by
  unfold normMin
  split <;> omega

/-- Normalized `MaxConsume` is negative or at least the normalized `MinConsume`. -/
theorem normMax_inv {E U : Type} (act : Action E U) :
    normMax act < 0 ∨ normMin act ≤ normMax act := by
  unfold normMax
  split
  · right
    exact le_refl _
  · rename_i hn
    unfold normMin at hn ⊢
    by_cases h0 : act.MaxConsume < 0
    · left
      exact h0
    · right
      split at hn <;> omega

/-- A per-tree `all`-invariant lifts to `allNodesListAux` over a child list. -/
theorem allNodesListAux_all {E U : Type} (P : Action E U → Bool) :
    ∀ l : List (Action E U), (∀ c ∈ l, (allNodesList c).all P = true) →
      (allNodesListAux l).all P = true := by
  intro l
  induction l with
  | nil => intro _; rfl
  | cons a l ih =>
    intro h
    show (allNodesList a ++ allNodesListAux l).all P = true
    rw [List.all_append, Bool.and_eq_true]
    exact ⟨h a (List.mem_cons_self a l),
      ih (fun c hc => h c (List.mem_cons_of_mem a hc))⟩

/-- Every node of a successfully finalized tree satisfies the consume-range
invariant, at any fuel. -/
theorem finTree_inv {E U : Type} :
    ∀ (n : Nat) (p : Option (Action E U)) (act act' : Action E U),
      finalizeActionTreeF n p act = .ok act' →
      (allNodesList act').all consumeInvB = true := by
  intro n
  induction n with
  | zero =>
    intro p act act' h
    simp [finalizeActionTreeF] at h
  | succ m ih =>
    intro p act act' h
    obtain ⟨a2, children', hprep, hlist, hact⟩ := finTree_ok_destruct h
    have hdata := finalizePrep_ok_data hprep
    subst hact
    show (Action.mk { a2.data with finalized := true } children' ::
      allNodesListAux children').all consumeInvB = true
    rw [List.all_cons, Bool.and_eq_true]
    refine ⟨?_, ?_⟩
    · simp only [consumeInvB, Action.MinConsume, Action.MaxConsume, Action.data_mk, hdata,
        prepAct]
      have h1 := normMin_nonneg act
      have h2 := normMax_inv act
      simp only [Bool.and_eq_true, decide_eq_true_eq]
      exact ⟨h1, h2⟩
    · exact allNodesListAux_all _ children'
        (exceptMapList_ok_forall hlist (fun a b hab => ih _ a b hab))

/-! ### C3: consume-range invariant after Finalize -/

/-- C3: after a successful `Finalize` on a root, every node of the resulting
tree satisfies `0 ≤ MinConsume` and (`MaxConsume < 0` or
`MinConsume ≤ MaxConsume`); moreover the root's raw `MinConsume` below zero is
normalized to `0` and a non-negative raw `MaxConsume` below the normalized
`MinConsume` is raised to it. -/
theorem finalize_consume_invariant {E U : Type} (act act' : Action E U)
    (h : Finalize act = .ok act') :
    (allNodesList act').all consumeInvB = true ∧
    act'.MinConsume = (if act.MinConsume < 0 then 0 else act.MinConsume) ∧
    act'.MaxConsume =
      (if 0 ≤ act.MaxConsume ∧
          act.MaxConsume < (if act.MinConsume < 0 then 0 else act.MinConsume)
       then (if act.MinConsume < 0 then 0 else act.MinConsume)
       else act.MaxConsume) := by
  unfold Finalize at h
  refine ⟨finTree_inv _ _ _ _ h, ?_, ?_⟩
  · exact (finTree_ok_data h).2.1
  · exact (finTree_ok_data h).2.2.1

/-- Child with a raw consume range needing both normalizations. -/
def c3child : Action Unit Unit :=
  .mk { emptyData with Trigger := "sub", MinConsume := 3, MaxConsume := 1 } []
/-- Root with a negative raw `MinConsume` for the C3 witness. -/
def c3tree : Action Unit Unit :=
  .mk { emptyData with Trigger := "root", MinConsume := -1 } [c3child]
/-- The finalized C3 witness tree. -/
def c3res : Action Unit Unit := (Finalize c3tree).toOption.getD emptyAct

/-- Witness for C3 at a concrete tree with raw values `-1` and `3 > 1`. -/
theorem finalize_consume_invariant_witness :
    Finalize c3tree = .ok c3res ∧
    (allNodesList c3res).all consumeInvB = true ∧
    c3res.MinConsume = (if c3tree.MinConsume < 0 then 0 else c3tree.MinConsume) ∧
    c3res.MaxConsume =
      (if 0 ≤ c3tree.MaxConsume ∧
          c3tree.MaxConsume < (if c3tree.MinConsume < 0 then 0 else c3tree.MinConsume)
       then (if c3tree.MinConsume < 0 then 0 else c3tree.MinConsume)
       else c3tree.MaxConsume) :=
  ⟨rfl, (finalize_consume_invariant c3tree c3res rfl).1,
    (finalize_consume_invariant c3tree c3res rfl).2.1,
    (finalize_consume_invariant c3tree c3res rfl).2.2⟩

/-! ### C4: help-child injection at finalize time -/

/-- C4: at finalize time a synthetic help child (trigger = the resolved help
trigger, `MaxConsume = 1`, help disabled on itself) is appended exactly when
the node does not disable help and its normalized `MaxConsume` is `0` and no
user child owns that trigger already; when the injection condition fails the
child triggers are unchanged; when a user child collides, the triggers are
likewise unchanged (the user's child wins) and — second conjunct — finalize
never fails with `DuplicatedSubActionError` at all. -/
theorem finalize_help_injection :
    (∀ (E U : Type) (n : Nat) (p : Option (Action E U)) (act act' : Action E U),
      finalizeActionTreeF (n + 1) p act = .ok act' →
      ((act.DisableHelp = false ∧ normMax act = 0 ∧
          act.children.any (fun c => c.Trigger == resolvedHelpTrigger p act) = false →
          ∃ (cs1 : List (Action E U)) (hc : Action E U), act'.children = cs1 ++ [hc] ∧
            cs1.map Action.Trigger = act.children.map Action.Trigger ∧
            hc.Trigger = resolvedHelpTrigger p act ∧ hc.MaxConsume = 1 ∧
            hc.DisableHelp = true) ∧
       (¬ (act.DisableHelp = false ∧ normMax act = 0) →
          act'.children.map Action.Trigger = act.children.map Action.Trigger) ∧
       (act.DisableHelp = false ∧ normMax act = 0 ∧
          act.children.any (fun c => c.Trigger == resolvedHelpTrigger p act) = true →
          act'.children.map Action.Trigger = act.children.map Action.Trigger))) ∧
    (∀ (E U : Type) (n : Nat) (p : Option (Action E U)) (act : Action E U) (t : String),
      finalizeActionTreeF n p act ≠ .error (.duplicatedSubAction t)) := by
  constructor
  · intro E U n p act act' h
    obtain ⟨a2, children', hprep, hlist, hact⟩ := finTree_ok_destruct h
    have hcases := finalizePrep_ok_cases hprep
    refine ⟨?_, ?_, ?_⟩
    · rintro ⟨hdh, hmx, hany⟩
      rcases hcases.2.2 with hc | hc | hc
      · have ha2 : a2 = Action.mk (prepAct p act).data (act.children ++ [injHelpChild p act]) :=
          hc.2.2.2.2
        subst ha2
        subst hact
        simp only [Action.children_mk] at hlist ⊢
        obtain ⟨r1, b, hr, hl1, hfb⟩ := exceptMapList_append_one hlist
        refine ⟨r1, b, by rw [hr], ?_, ?_, ?_, ?_⟩
        · exact exceptMapList_map_eq Action.Trigger Action.Trigger hl1
            (fun a c hac => finTree_ok_trigger hac)
        · rw [finTree_ok_trigger hfb]
          rfl
        · rw [(finTree_ok_data hfb).2.2.1]
          rfl
        · rw [(finTree_ok_data hfb).2.2.2.1]
          rfl
      · rw [hc.2.2.1] at hany
        simp at hany
      · exact absurd ⟨hdh, hmx⟩ hc.1
    · intro hnot
      rcases hcases.2.2 with hc | hc | hc
      · exact absurd ⟨hc.1, hc.2.1⟩ hnot
      · exact absurd ⟨hc.1, hc.2.1⟩ hnot
      · have ha2 : a2 = prepAct p act := hc.2
        subst ha2
        subst hact
        simp only [Action.children_mk, prepAct_children] at hlist ⊢
        exact exceptMapList_map_eq Action.Trigger Action.Trigger hlist
          (fun a c hac => finTree_ok_trigger hac)
    · rintro ⟨hdh, hmx, hany⟩
      rcases hcases.2.2 with hc | hc | hc
      · rw [hc.2.2.1] at hany
        simp at hany
      · have ha2 : a2 = prepAct p act := hc.2.2.2
        subst ha2
        subst hact
        simp only [Action.children_mk, prepAct_children] at hlist ⊢
        exact exceptMapList_map_eq Action.Trigger Action.Trigger hlist
          (fun a c hac => finTree_ok_trigger hac)
      · exact absurd ⟨hdh, hmx⟩ hc.1
  · intro E U n p act t
    exact finTree_ne_dup n p act t

/-- Tree with a user-defined `help` child for the C4 witness (collision case). -/
def c4coll : Action Unit Unit :=
  .mk { emptyData with Trigger := "cmd" }
    [.mk { emptyData with Trigger := "help", ShortDescr := "mine" } []]
/-- The finalized C4 witness tree. -/
def c4res : Action Unit Unit := (finalizeActionTreeF 3 none c4coll).toOption.getD emptyAct

/-- Witness for C4: with a colliding user `help` child the injection is
swallowed, the trigger list is unchanged and finalize still succeeds; and the
recursion never reports a duplicated-sub-action error. -/
theorem finalize_help_injection_witness :
    (c4coll.DisableHelp = false ∧ normMax c4coll = 0 ∧
      c4coll.children.any (fun c => c.Trigger == resolvedHelpTrigger none c4coll) = true) ∧
    finalizeActionTreeF 3 none c4coll = .ok c4res ∧
    c4res.children.map Action.Trigger = c4coll.children.map Action.Trigger ∧
    finalizeActionTreeF 5 none c4coll ≠ .error (.duplicatedSubAction "help") :=
  ⟨⟨rfl, by decide, rfl⟩, by rfl,
    (finalize_help_injection.1 Unit Unit 2 none c4coll c4res (by rfl)).2.2
      ⟨rfl, by decide, rfl⟩,
    finalize_help_injection.2 Unit Unit 5 none c4coll "help"⟩

/-! ### C5 (code_bug): the injected help child's description -/

/-- Root node for the C5 evaluation. -/
def c5root : Action Unit Unit := .mk { emptyData with Trigger := "cmd" } []
/-- The finalized C5 tree. -/
def c5res : Action Unit Unit := (Finalize c5root).toOption.getD emptyAct

/-- C5 evaluated on the code: the synthetic help child injected at finalize
carries the short description `"Display help for commands"`, not
`"Display help for this Action or Sub-action"` (which the repository's own
tests expect, e.g. action_test.go `TestHelpBasicMini`), and that description is
what appears on the help line of the default sub-action listing. -/
theorem help_child_descr_code_bug :
    Finalize c5root = .ok c5res ∧
    c5res.SubActionsT = ["help"] ∧
    (c5res.GetSubAction "help").ShortDescr = "Display help for commands" ∧
    ¬ (c5res.GetSubAction "help").ShortDescr = "Display help for this Action or Sub-action" ∧
    defaultHelpGenerator c5res
      = "[Usage]\ncmd [sub-action]\n\n[Sub-actions]\nhelp\n- Display help for commands" := by
  refine ⟨rfl, rfl, rfl, by decide, rfl⟩

/-! ### C6 (code_bug): hidden children in the sub-action listing -/

/-- Visible child for the C6 evaluation. -/
def c6vis : Action Unit Unit :=
  .mk { emptyData with Trigger := "vis", ShortDescr := "v" } []
/-- Hidden child for the C6 evaluation. -/
def c6hid : Action Unit Unit :=
  .mk { emptyData with Trigger := "hid", ShortDescr := "h", Hidden := true } []
/-- Root for the C6 evaluation. -/
def c6root : Action Unit Unit := .mk { emptyData with Trigger := "cmd" } []
/-- The C6 tree built through `AddSubAction`. -/
def c6built : Action Unit Unit :=
  ((AddSubAction c6root c6vis).bind (fun p => AddSubAction p c6hid)).toOption.getD emptyAct
/-- The finalized C6 tree. -/
def c6res : Action Unit Unit := (Finalize c6built).toOption.getD emptyAct

/-- C6 evaluated on the code: `defaultHelpGenerator` renders one line per child
*without consulting the `Hidden` flag*, so the hidden child's line
`"hid\n- h"` appears in the sub-action listing, contradicting the claim (and
the `Hidden` field's own doc comment). -/
theorem help_listing_includes_hidden :
    c6hid.Hidden = true ∧
    Finalize c6built = .ok c6res ∧
    (c6res.GetSubAction "hid").Hidden = true ∧
    defaultHelpGenerator c6res
      = "[Usage]\ncmd [sub-action]\n\n[Sub-actions]\nvis\n- v\nhid\n- h\nhelp\n- Display help for commands" := by
  refine ⟨rfl, rfl, rfl, rfl⟩

end Argo
